/-
Verification of the operation-log component (pkg/cluster/gateway oplog) and the
HTTP-server spec validation of this repository, as a shallow embedding in Lean 4.

The embedding models:
  * the badger-backed key/value store as a function from string keys to optional
    string values; a write transaction is a staged copy of that function which
    replaces the database on a successful commit and is dropped on discard;
  * fmt.Sprintf("%d", n) as printDec, and strconv.ParseUint(s, 0, 64) as
    goParseUint (restricted to plain decimal strings: the program only ever
    writes %d-formatted decimals under maxSeqKey, on which base-0 autodetection
    coincides with plain decimal; out-of-range or unparsable values make the
    reader fall back to 0, exactly as in the source);
  * uint64 arithmetic as Nat with an explicit % 2^64 at the additions the Go
    code performs on uint64 values (ms+1 and startSeq+idx);
  * the external json.Marshal / json.Unmarshal calls and the commit outcome of
    the store as parameters of an environment record, since they are library
    calls outside this repository;
  * registered callbacks as functions from (sequence, operation) to an optional
    failure kind: none models a nil error, some ft models a non-nil error
    together with the reported OperationFailureType ft.
-/
import Mathlib

set_option maxRecDepth 4000

/-- 2^64, the modulus of Go's uint64 arithmetic. -/
def U64 : Nat := 2 ^ 64

/-- The ASCII digit character for a digit value d < 10. -/
def digitChar (d : Nat) : Char := Char.ofNat (48 + d)

/-- The decimal digits of n, most significant first, by structural recursion
on a fuel bound (so that the kernel can evaluate it). -/
def printDecAux : Nat → Nat → List Char
  | 0, _ => []
  | fuel + 1, n =>
    if n = 0 then [] else printDecAux fuel (n / 10) ++ [digitChar (n % 10)]

/-- Decimal rendering of a natural number, the model of fmt.Sprintf("%d", n). -/
def printDec (n : Nat) : String :=
  if n = 0 then "0" else String.mk (printDecAux n n)

/-- Value of a list of ASCII digit characters read left to right in base 10. -/
def digitsVal (l : List Char) : Nat :=
  l.foldl (fun acc c => acc * 10 + (c.toNat - 48)) 0

/-- Whether a character is an ASCII decimal digit. -/
def isDigitByte (c : Char) : Bool :=
  decide (48 ≤ c.toNat) && decide (c.toNat ≤ 57)

/-- Model of strconv.ParseUint(s, 0, 64) on the decimal strings this program
produces: a non-empty all-digit string parses to its value when it fits in
uint64, anything else is a parse error (the source treats a parse error by
falling back to 0).  Base-0 prefix autodetection and digit underscores never
occur in values the program writes, so they are not modelled. -/
def goParseUint (s : String) : Option Nat :=
  if s.data = [] then none
  else if s.data.all isDigitByte then
    if digitsVal s.data < U64 then some (digitsVal s.data) else none
  else none

/-- The store: badger keys to values, both byte strings. -/
abbrev Store := String → Option String

/-- txn.Set staged inside a transaction (or applied to the database on commit). -/
def storeSet (st : Store) (k v : String) : Store :=
  fun k' => if k' = k then some v else st k'

/-- The reserved key holding the max sequence number (const maxSeqKey). -/
def maxSeqKey : String := "maxSeqKey"

/-- Modelled from the spec: the Operation record (its Go declaration is not
under src): one administrative change, polymorphic over six optional content
variants (create/update/delete of a plugin or a pipeline), each carrying an
opaque payload.  The oplog source only tests the variants for presence and
passes the whole record to json.Marshal. -/
structure Operation where
  contentCreatePlugin   : Option String
  contentUpdatePlugin   : Option String
  contentDeletePlugin   : Option String
  contentCreatePipeline : Option String
  contentUpdatePipeline : Option String
  contentDeletePipeline : Option String
deriving DecidableEq, Inhabited

/-- The switch in Append (lines 221-231): at least one content variant set. -/
def Operation.hasContent (o : Operation) : Bool :=
  o.contentCreatePlugin.isSome || o.contentUpdatePlugin.isSome ||
  o.contentDeletePlugin.isSome || o.contentCreatePipeline.isSome ||
  o.contentUpdatePipeline.isSome || o.contentDeletePipeline.isSome

/-- Modelled from the spec: OperationFailureKind, what a callback reports about
why applying one operation failed (General, TargetNotFound, NotAcceptable,
Conflict, Unknown, None = success); the Go constant declarations are not under
src.  NoneOperationFailure is the zero/success value (the source's switch lists
it first and the spec calls it the success kind). -/
inductive OperationFailureType where
  | NoneOperationFailure
  | OperationGeneralFailure
  | OperationTargetNotFoundFailure
  | OperationNotAcceptableFailure
  | OperationConflictFailure
  | OperationUnknownFailure
deriving DecidableEq, Inhabited

/-- Modelled from the spec: ClusterErrorType, why an Append/Retrieve call
failed (None, Internal, InvalidSeq, SeqConflict, InvalidContent and the five
callback-derived kinds); the Go constant declarations are not under src.
NoneClusterError is the zero/success value. -/
inductive ClusterErrorType where
  | NoneClusterError
  | InternalServerError
  | OperationInvalidSeqError
  | OperationSeqConflictError
  | OperationInvalidContentError
  | OperationGeneralFailureError
  | OperationTargetNotFoundFailureError
  | OperationNotAcceptableFailureError
  | OperationConflictFailureError
  | OperationUnknownFailureError
deriving DecidableEq, Inhabited

/-- The switch of Append lines 260-277 mapping a callback's reported failure
kind to the returned cluster error.  The variable starts as InternalServerError;
every listed case overwrites it.  In the NoneOperationFailure case the source
executes clusterErrType = NoneOperationFailure: the constant's numeric value
(the zero/success value of its own enumeration, see the declarations modelled
above) which, read as a ClusterErrorType, is NoneClusterError. -/
def clusterErrTypeOfFailure : OperationFailureType → ClusterErrorType
  | .NoneOperationFailure => .NoneClusterError
  | .OperationGeneralFailure => .OperationGeneralFailureError
  | .OperationTargetNotFoundFailure => .OperationTargetNotFoundFailureError
  | .OperationNotAcceptableFailure => .OperationNotAcceptableFailureError
  | .OperationConflictFailure => .OperationConflictFailureError
  | .OperationUnknownFailure => .OperationUnknownFailureError

/-- Environment of one oplog call: the external json codec, the outcome the
store will give to txn.Commit, and the registered callbacks in invocation
order (a callback result none models a nil error; some ft models a non-nil
error with reported failure kind ft). -/
structure OpLogEnv where
  marshal   : Operation → Option String
  unmarshal : String → Option Operation
  commitOk  : Bool
  callbacks : List (Nat → Operation → Option OperationFailureType)

/-- opLog._locklessReadMaxSeq: missing key or unparsable value reads as 0, an
empty value reads as "0". -/
def OpLog.locklessReadMaxSeq (st : Store) : Nat :=
  match st maxSeqKey with
  | none => 0
  | some v =>
    let v' := if v = "" then "0" else v
    (goParseUint v').getD 0

/-- opLog._locklessWriteMaxSeq: stores the %d-formatted sequence number. -/
def OpLog.locklessWriteMaxSeq (st : Store) (ms : Nat) : Store :=
  storeSet st maxSeqKey (printDec ms)

/-- opLog._locklessIncreaseMaxSeq: read, increment (uint64), write back. -/
def OpLog.locklessIncreaseMaxSeq (st : Store) : Store :=
  OpLog.locklessWriteMaxSeq st ((OpLog.locklessReadMaxSeq st + 1) % U64)

/-- opLog.MaxSeq: a fresh read transaction sees the committed database. -/
def OpLog.MaxSeq (db : Store) : Nat := OpLog.locklessReadMaxSeq db

/-- The inner loop of Append lines 254-281: run every registered callback in
order for one operation, recording each invocation, stopping at the first
failure. Returns the failure (if any) and the list of invocations performed. -/
def runCallbacks (cbs : List (Nat → Operation → Option OperationFailureType))
    (seq : Nat) (o : Operation) :
    Option OperationFailureType × List (Nat × Operation) :=
  match cbs with
  | [] => (none, [])
  | cb :: rest =>
    match cb seq o with
    | some ft => (some ft, [(seq, o)])
    | none =>
      let r := runCallbacks rest seq o
      (r.1, (seq, o) :: r.2)

/-- Outcome of the per-operation loop of Append: either an abort (the error
message, the cluster error, and the callback invocations that already ran), or
the staged transaction together with all callback invocations. -/
inductive LoopOut where
  | abort (err : String) (cerr : ClusterErrorType) (calls : List (Nat × Operation))
  | ok (txn : Store) (calls : List (Nat × Operation))

/-- The body of Append's for-loop (lines 221-282), one iteration per remaining
operation: content check, json.Marshal, txn.Set under the decimal key of the
absolute sequence number, _locklessIncreaseMaxSeq, then every callback.  The
store's txn.Set never fails on the non-empty keys this loop writes, matching
the store contract; marshal failure and callback failure abort. -/
def appendLoop (env : OpLogEnv) (startSeq : Nat) :
    Store → Nat → List Operation → LoopOut
  | txn, _, [] => .ok txn []
  | txn, idx, o :: rest =>
    if o.hasContent = false then
      .abort "operation content is empty" .OperationInvalidContentError []
    else
      match env.marshal o with
      | none => .abort "marshal operation failed" .OperationInvalidContentError []
      | some opBuff =>
        let seq := (startSeq + idx) % U64
        let txn1 := storeSet txn (printDec seq) opBuff
        let txn2 := OpLog.locklessIncreaseMaxSeq txn1
        let rc := runCallbacks env.callbacks seq o
        match rc.1 with
        | some ft => .abort "operation failed" (clusterErrTypeOfFailure ft) rc.2
        | none =>
          match appendLoop env startSeq txn2 (idx + 1) rest with
          | .abort e c calls => .abort e c (rc.2 ++ calls)
          | .ok t calls => .ok t (rc.2 ++ calls)

/-- Result of opLog.Append: the database after the call (unchanged unless the
transaction committed), the returned error, the returned ClusterErrorType, and
the callback invocations that ran during the call. -/
structure AppendResult where
  store : Store
  err   : Option String
  cerr  : ClusterErrorType
  calls : List (Nat × Operation)

/-- opLog.Append (lines 200-291): empty batch is an immediate success; then
sequence validation against the max sequence read in the fresh transaction;
then the per-operation loop; finally txn.Commit, whose failure leaves the
database unchanged and returns a non-nil error with NoneClusterError. -/
def OpLog.Append (env : OpLogEnv) (db : Store) (startSeq : Nat)
    (operations : List Operation) : AppendResult :=
  if operations = [] then ⟨db, none, .NoneClusterError, []⟩
  else
    let ms := OpLog.locklessReadMaxSeq db
    if startSeq = 0 then
      ⟨db, some "invalid sequential operation", .InternalServerError, []⟩
    else if (ms + 1) % U64 < startSeq then
      ⟨db, some "invalid sequential operation", .OperationInvalidSeqError, []⟩
    else if startSeq < (ms + 1) % U64 then
      ⟨db, some "operation conflict", .OperationSeqConflictError, []⟩
    else
      match appendLoop env startSeq db 0 operations with
      | .abort e c calls => ⟨db, some e, c, calls⟩
      | .ok txn calls =>
        if env.commitOk then ⟨txn, none, .NoneClusterError, calls⟩
        else ⟨db, some "commit transaction failed", .NoneClusterError, calls⟩

/-- The for-loop of Retrieve (lines 309-337): at most cnt further iterations,
stopping when the sequence passes the max sequence; a missing entry, an empty
value, or an unmarshal failure is an internal error. -/
def retrieveLoop (env : OpLogEnv) (st : Store) (ms startSeq : Nat) :
    Nat → Nat → Except String (List Operation)
  | _, 0 => .ok []
  | idx, cnt + 1 =>
    let seq := (startSeq + idx) % U64
    if seq ≤ ms then
      match st (printDec seq) with
      | none => .error "get operation from badger failed"
      | some opBuff =>
        if opBuff = "" then .error "get empty operation from badger"
        else
          match env.unmarshal opBuff with
          | none => .error "unmarshal operation failed"
          | some o =>
            match retrieveLoop env st ms startSeq (idx + 1) cnt with
            | .error e => .error e
            | .ok l => .ok (o :: l)
    else .ok []

/-- opLog.Retrieve (lines 294-340): returns the operations, the error and the
cluster error type. -/
def OpLog.Retrieve (env : OpLogEnv) (db : Store) (startSeq countLimit : Nat) :
    List Operation × Option String × ClusterErrorType :=
  let ms := OpLog.locklessReadMaxSeq db
  if startSeq = 0 then
    ([], some "invalid begin sequential operation", .InternalServerError)
  else if ms < startSeq then ([], none, .NoneClusterError)
  else
    match retrieveLoop env db ms startSeq 0 countLimit with
    | .error e => ([], some e, .InternalServerError)
    | .ok l => (l, none, .NoneClusterError)

/-- HTTP server Spec (pkg httpserver): the fields of the configuration record
(the embedded ObjectMeta, the ipfilter spec and the routing rules are external
types never read by Validate and are left out). -/
structure HTTPServer.Spec where
  port             : Nat
  keepAlive        : Bool
  keepAliveTimeout : String
  maxConnections   : Nat
  https            : Bool
  certBase64       : String
  keyBase64        : String
  cacheSize        : Nat
deriving DecidableEq, Inhabited

/-- Spec.tlsConfig (lines 73-83): base64-decodes the two fields and builds an
X509 key pair; the crypto library call is external, so its outcome is the
parameter x509, which returns an error message or none on success. -/
def HTTPServer.Spec.tlsConfig (x509 : String → String → Option String)
    (spec : HTTPServer.Spec) : Option String :=
  match x509 spec.certBase64 spec.keyBase64 with
  | some e => some ("generate x509 key pair failed: " ++ e)
  | none => none

/-- Spec.Validate (lines 56-71): the returned error, none on success. -/
def HTTPServer.Spec.Validate (x509 : String → String → Option String)
    (spec : HTTPServer.Spec) : Option String :=
  if spec.https then
    if spec.certBase64 = "" then some "cert is empty when https enabled"
    else if spec.keyBase64 = "" then some "key is empty when https enabled"
    else
      match HTTPServer.Spec.tlsConfig x509 spec with
      | some e => some e
      | none => none
  else none

/-- The checks one iteration of Append's loop performs on one operation, in
source order: content presence, json.Marshal, then the callbacks; the value is
the cluster error the iteration aborts with, or none when the iteration
completes. -/
def stepCheck (env : OpLogEnv) (seq : Nat) (o : Operation) : Option ClusterErrorType :=
  if o.hasContent = false then some .OperationInvalidContentError
  else
    match env.marshal o with
    | none => some .OperationInvalidContentError
    | some _ =>
      match (runCallbacks env.callbacks seq o).1 with
      | some ft => some (clusterErrTypeOfFailure ft)
      | none => none

/-- The callback invocations one iteration of Append's loop performs on one
operation (none when it aborts before reaching the callbacks). -/
def stepTrace (env : OpLogEnv) (seq : Nat) (o : Operation) : List (Nat × Operation) :=
  if o.hasContent = false then []
  else
    match env.marshal o with
    | none => []
    | some _ => (runCallbacks env.callbacks seq o).2

/-- All callback invocations Append's loop performs over a list of operations
whose iterations all complete. -/
def loopTrace (env : OpLogEnv) (s : Nat) : Nat → List Operation → List (Nat × Operation)
  | _, [] => []
  | idx, o :: rest =>
    (runCallbacks env.callbacks ((s + idx) % U64) o).2 ++ loopTrace env s (idx + 1) rest

/-- A concrete operation carrying a create-plugin payload. -/
def opA : Operation := ⟨some "plugin-a", none, none, none, none, none⟩

/-- A concrete operation carrying an update-plugin payload. -/
def opB : Operation := ⟨none, some "plugin-b", none, none, none, none⟩

/-- A concrete operation carrying a create-pipeline payload. -/
def opC : Operation := ⟨none, none, none, some "pipeline-c", none, none⟩

/-- The store of a freshly initialized empty log: maxSeqKey holds "0". -/
def db0 : Store := storeSet (fun _ => none) maxSeqKey "0"

/-- A committed two-entry log: max sequence 2, entries "a" and "b". -/
def db2 : Store :=
  storeSet (storeSet (storeSet (fun _ => none) maxSeqKey "2") (printDec 1) "a")
    (printDec 2) "b"

/-- A concrete json encoder for the three concrete operations. -/
def marshalABC : Operation → Option String :=
  fun o => if o = opA then some "a" else if o = opB then some "b" else some "c"

/-- The matching concrete json decoder. -/
def unmarshalABC : String → Option Operation :=
  fun b =>
    if b = "a" then some opA
    else if b = "b" then some opB
    else if b = "c" then some opC
    else none

/-- Environment with no callbacks and a committing store. -/
def envPlain : OpLogEnv := ⟨marshalABC, unmarshalABC, true, []⟩

/-- Environment whose store fails the final commit. -/
def envNoCommit : OpLogEnv := ⟨marshalABC, unmarshalABC, false, []⟩

/-- Environment with one callback that always fails reporting kind None. -/
def envNoneFailureCb : OpLogEnv :=
  ⟨marshalABC, unmarshalABC, true, [fun _ _ => some .NoneOperationFailure]⟩

/-- Environment with one callback that fails from sequence 2 onward. -/
def envFailAt2 : OpLogEnv :=
  ⟨marshalABC, unmarshalABC, true,
    [fun seq _ => if 2 ≤ seq then some .OperationGeneralFailure else none]⟩

/-- Environment whose json encoder always fails. -/
def envNoMarshal : OpLogEnv := ⟨fun _ => none, unmarshalABC, true, []⟩

/-- An x509 outcome that always succeeds. -/
def x509ok : String → String → Option String := fun _ _ => none

/-- A plain-HTTP server spec with empty cert and key. -/
def hspec1 : HTTPServer.Spec := ⟨80, true, "", 100, false, "", "", 0⟩

/-- An HTTPS server spec with an empty certificate. -/
def hspec2 : HTTPServer.Spec := ⟨443, true, "", 100, true, "", "key", 0⟩

/-- An HTTPS server spec with an empty key. -/
def hspec3 : HTTPServer.Spec := ⟨443, true, "", 100, true, "cert", "", 0⟩

/-- toNat of the digit character of d < 10 is 48 + d. -/
theorem digitChar_toNat {d : Nat} (hd : d < 10) : (digitChar d).toNat = 48 + d := by
  interval_cases d <;> decide

/-- Appending one character multiplies the accumulated value by 10. -/
theorem digitsVal_append (l : List Char) (c : Char) :
    digitsVal (l ++ [c]) = digitsVal l * 10 + (c.toNat - 48) := by
  simp [digitsVal, List.foldl_append]

/-- Reading the reversed digit list left to right recovers ofDigits. -/
theorem digitsVal_eq_ofDigits (L : List Nat) (hL : ∀ d ∈ L, d < 10) :
    digitsVal (L.reverse.map digitChar) = Nat.ofDigits 10 L := by
  induction L with
  | nil => simp [digitsVal]
  | cons d L ih =>
    have hd : d < 10 := hL d (by simp)
    have hL' : ∀ x ∈ L, x < 10 := fun x hx => hL x (by simp [hx])
    rw [List.reverse_cons, List.map_append, List.map_singleton, digitsVal_append,
      ih hL', digitChar_toNat hd, Nat.ofDigits_cons]
    omega

/-- printDecAux renders zero to the empty list at any fuel. -/
theorem printDecAux_zero (fuel : Nat) : printDecAux fuel 0 = [] := by
  cases fuel <;> simp [printDecAux]

/-- With enough fuel, printDecAux agrees with the digit list of n. -/
theorem printDecAux_eq (fuel : Nat) :
    ∀ n, n ≠ 0 → n ≤ fuel →
    printDecAux fuel n = (Nat.digits 10 n).reverse.map digitChar := by
  induction fuel with
  | zero => intro n hn hf; omega
  | succ fuel ih =>
    intro n hn hf
    rw [printDecAux, if_neg hn,
      Nat.digits_def' (by norm_num : (1:Nat) < 10) (by omega)]
    rw [List.reverse_cons, List.map_append, List.map_singleton]
    by_cases hq : n / 10 = 0
    · rw [hq, printDecAux_zero, Nat.digits_zero, List.reverse_nil, List.map_nil]
    · rw [ih (n / 10) hq (by
        have := Nat.div_lt_self (by omega : 0 < n) (by norm_num : 1 < 10)
        omega)]

/-- The character list of printDec n for non-zero n. -/
theorem printDec_data (n : Nat) (hn : n ≠ 0) :
    (printDec n).data = (Nat.digits 10 n).reverse.map digitChar := by
  simp only [printDec, if_neg hn]
  exact printDecAux_eq n n hn le_rfl

/-- The decimal rendering evaluates back to its argument. -/
theorem digitsVal_printDec (n : Nat) : digitsVal (printDec n).data = n := by
  by_cases hn : n = 0
  · subst hn; decide
  · rw [printDec_data n hn,
      digitsVal_eq_ofDigits _ (fun d hd => Nat.digits_lt_base (by norm_num) hd)]
    exact_mod_cast Nat.ofDigits_digits 10 n

/-- printDec never renders to the empty character list. -/
theorem printDec_data_ne_nil (n : Nat) : (printDec n).data ≠ [] := by
  by_cases hn : n = 0
  · subst hn; decide
  · rw [printDec_data n hn]
    simp [Nat.digits_ne_nil_iff_ne_zero.mpr hn]

/-- printDec never renders to the empty string. -/
theorem printDec_ne_empty (n : Nat) : printDec n ≠ "" := by
  intro h
  exact printDec_data_ne_nil n (congrArg String.data h)

/-- Every character of a decimal rendering is an ASCII digit. -/
theorem printDec_all_digits (n : Nat) : (printDec n).data.all isDigitByte = true := by
  by_cases hn : n = 0
  · subst hn; decide
  · rw [printDec_data n hn, List.all_eq_true]
    intro c hc
    simp only [List.mem_map, List.mem_reverse] at hc
    obtain ⟨d, hd, rfl⟩ := hc
    have hd10 : d < 10 := Nat.digits_lt_base (by norm_num) hd
    simp only [isDigitByte, digitChar_toNat hd10, Bool.and_eq_true, decide_eq_true_eq]
    omega

/-- Parsing a rendered in-range number gives it back. -/
theorem goParseUint_printDec {n : Nat} (h : n < U64) :
    goParseUint (printDec n) = some n := by
  unfold goParseUint
  rw [if_neg (printDec_data_ne_nil n)]
  rw [if_pos (printDec_all_digits n), digitsVal_printDec n, if_pos h]

/-- A successful parse is always below 2^64. -/
theorem goParseUint_lt {s : String} {m : Nat} (h : goParseUint s = some m) : m < U64 := by
  unfold goParseUint at h
  split at h
  · exact absurd h (by simp)
  · split at h
    · split at h
      · cases h; assumption
      · exact absurd h (by simp)
    · exact absurd h (by simp)

/-- Distinct numbers have distinct decimal renderings. -/
theorem printDec_injective : Function.Injective printDec := by
  intro a b h
  have ha := digitsVal_printDec a
  rw [h, digitsVal_printDec b] at ha
  exact ha.symm

/-- A decimal key is never the reserved max-sequence key. -/
theorem printDec_ne_maxSeqKey (n : Nat) : printDec n ≠ maxSeqKey := by
  intro h
  have h1 := printDec_all_digits n
  rw [h] at h1
  exact absurd h1 (by decide)

/-- Reading the key just written. -/
theorem storeSet_same (st : Store) (k v : String) : storeSet st k v k = some v := by
  simp [storeSet]

/-- Reading another key is unaffected by a write. -/
theorem storeSet_other (st : Store) {k k' v : String} (h : k' ≠ k) :
    storeSet st k v k' = st k' := by
  simp [storeSet, h]

/-- The max sequence is always representable in uint64. -/
theorem locklessReadMaxSeq_lt (st : Store) : OpLog.locklessReadMaxSeq st < U64 := by
  unfold OpLog.locklessReadMaxSeq
  cases h : st maxSeqKey with
  | none => norm_num [U64]
  | some v =>
    simp only []
    cases hp : goParseUint (if v = "" then "0" else v) with
    | none => simp [hp]; norm_num [U64]
    | some m => simp [hp]; exact goParseUint_lt hp

/-- Reading back the max sequence after writing it. -/
theorem locklessRead_write (st : Store) {m : Nat} (h : m < U64) :
    OpLog.locklessReadMaxSeq (OpLog.locklessWriteMaxSeq st m) = m := by
  unfold OpLog.locklessReadMaxSeq OpLog.locklessWriteMaxSeq
  rw [storeSet_same]
  simp only [if_neg (printDec_ne_empty m), goParseUint_printDec h, Option.getD_some]

/-- Writing an operation entry does not change the max sequence. -/
theorem locklessRead_set_ne (st : Store) {k v : String} (h : k ≠ maxSeqKey) :
    OpLog.locklessReadMaxSeq (storeSet st k v) = OpLog.locklessReadMaxSeq st := by
  unfold OpLog.locklessReadMaxSeq
  rw [storeSet_other st (Ne.symm h)]

/-- Increasing the staged max sequence, when it does not wrap. -/
theorem locklessRead_increase (st : Store)
    (h : OpLog.locklessReadMaxSeq st + 1 < U64) :
    OpLog.locklessReadMaxSeq (OpLog.locklessIncreaseMaxSeq st) =
      OpLog.locklessReadMaxSeq st + 1 := by
  unfold OpLog.locklessIncreaseMaxSeq
  rw [Nat.mod_eq_of_lt h, locklessRead_write st h]

/-- Increasing the staged max sequence leaves every other key unchanged. -/
theorem increase_get_ne (st : Store) {k : String} (h : k ≠ maxSeqKey) :
    OpLog.locklessIncreaseMaxSeq st k = st k := by
  unfold OpLog.locklessIncreaseMaxSeq OpLog.locklessWriteMaxSeq
  exact storeSet_other st h

/-- A completing iteration passed every check. -/
theorem stepCheck_eq_none {env : OpLogEnv} {seq : Nat} {o : Operation}
    (h : stepCheck env seq o = none) :
    o.hasContent = true ∧ (env.marshal o).isSome = true ∧
      (runCallbacks env.callbacks seq o).1 = none := by
  unfold stepCheck at h
  by_cases hc : o.hasContent = false
  · rw [if_pos hc] at h; cases h
  · rw [if_neg hc] at h
    cases hm : env.marshal o with
    | none => rw [hm] at h; cases h
    | some b =>
      rw [hm] at h
      cases hr : (runCallbacks env.callbacks seq o).1 with
      | none =>
        refine ⟨?_, by simp [hm], by simp [hr]⟩
        revert hc; cases o.hasContent <;> simp
      | some ft => rw [hr] at h; cases h


/-- Inversion of a completed Append loop: the staged transaction holds the old
contents, the serialized operations under their decimal sequence keys, and a
max sequence advanced by the batch length. -/
theorem appendLoop_ok_inv (env : OpLogEnv) (s : Nat) (ops : List Operation) :
    ∀ (txn : Store) (idx : Nat) (txn' : Store) (calls : List (Nat × Operation)),
    appendLoop env s txn idx ops = .ok txn' calls →
    s + idx + ops.length ≤ U64 →
    OpLog.locklessReadMaxSeq txn + ops.length < U64 →
    OpLog.locklessReadMaxSeq txn' = OpLog.locklessReadMaxSeq txn + ops.length ∧
    (∀ j, j < ops.length →
      txn' (printDec (s + idx + j)) = env.marshal (ops.getD j default) ∧
      (env.marshal (ops.getD j default)).isSome = true) ∧
    (∀ k, k ≠ maxSeqKey → (∀ j, j < ops.length → k ≠ printDec (s + idx + j)) →
      txn' k = txn k) := by
  induction ops with
  | nil =>
    intro txn idx txn' calls h _ _
    simp only [appendLoop] at h
    cases h
    exact ⟨by simp, fun j hj => absurd hj (by simp), fun k _ _ => rfl⟩
  | cons o rest ih =>
    intro txn idx txn' calls h hnw hms
    simp only [List.length_cons] at hnw hms
    have hseq : (s + idx) % U64 = s + idx := Nat.mod_eq_of_lt (by omega)
    simp only [appendLoop, hseq] at h
    by_cases hc : o.hasContent = false
    · rw [if_pos hc] at h; cases h
    rw [if_neg hc] at h
    cases hm : env.marshal o with
    | none => simp only [hm] at h; cases h
    | some b =>
    cases hr : (runCallbacks env.callbacks (s + idx) o).1 with
    | some ft => simp only [hm, hr] at h; cases h
    | none =>
    simp only [hm, hr] at h
    set txn1 : Store := storeSet txn (printDec (s + idx)) b with htxn1
    set txn2 : Store := OpLog.locklessIncreaseMaxSeq txn1 with htxn2
    have hread1 : OpLog.locklessReadMaxSeq txn1 = OpLog.locklessReadMaxSeq txn := by
      rw [htxn1]
      exact locklessRead_set_ne txn (printDec_ne_maxSeqKey (s + idx))
    have hread2 : OpLog.locklessReadMaxSeq txn2 =
        OpLog.locklessReadMaxSeq txn + 1 := by
      rw [htxn2, locklessRead_increase txn1 (by rw [hread1]; omega), hread1]
    cases hrec : appendLoop env s txn2 (idx + 1) rest with
    | abort e c calls0 => simp only [hrec] at h; cases h
    | ok t calls0 =>
    simp only [hrec] at h
    injection h with h1 h2
    subst h1
    subst h2
    obtain ⟨ihread, ihentries, ihpres⟩ := ih txn2 (idx + 1) t calls0 hrec
      (by omega) (by rw [hread2]; omega)
    refine ⟨?_, ?_, ?_⟩
    · rw [ihread, hread2, List.length_cons]; omega
    · intro j hj
      simp only [List.length_cons] at hj
      cases j with
      | zero =>
        have hk1 : printDec (s + idx) ≠ maxSeqKey := printDec_ne_maxSeqKey _
        have hk2 : ∀ j', j' < rest.length →
            printDec (s + idx) ≠ printDec (s + (idx + 1) + j') := by
          intro j' _ hcontra
          have := printDec_injective hcontra
          omega
        have hpres := ihpres (printDec (s + idx)) hk1 hk2
        rw [Nat.add_zero, hpres, htxn2, increase_get_ne txn1 hk1, htxn1,
          storeSet_same]
        simp [hm]
      | succ j' =>
        have hj' : j' < rest.length := by omega
        have hentry := ihentries j' hj'
        rw [List.getD_cons_succ]
        have harith : s + idx + (j' + 1) = s + (idx + 1) + j' := by omega
        rw [harith]
        exact hentry
    · intro k hk hkops
      simp only [List.length_cons] at hkops
      have hk2 : ∀ j', j' < rest.length → k ≠ printDec (s + (idx + 1) + j') := by
        intro j' hj' hcontra
        have harith : s + (idx + 1) + j' = s + idx + (j' + 1) := by omega
        rw [harith] at hcontra
        exact hkops (j' + 1) (by omega) hcontra
      have hk0 : k ≠ printDec (s + idx) := by
        have := hkops 0 (by omega)
        simpa using this
      rw [ihpres k hk hk2, htxn2, increase_get_ne txn1 hk, htxn1,
        storeSet_other txn hk0]

/-- If every iteration before index i completes and the checks fail at index i,
the Append loop aborts with the cluster error of the failing check, after
having performed exactly the callback invocations of the completed iterations
plus those of the failing one. -/
theorem appendLoop_abort_at (env : OpLogEnv) (s : Nat) (ops : List Operation) :
    ∀ (txn : Store) (idx : Nat) (i : Nat) (ce : ClusterErrorType),
    i < ops.length →
    (∀ j, j < i → stepCheck env (s + idx + j) (ops.getD j default) = none) →
    stepCheck env (s + idx + i) (ops.getD i default) = some ce →
    s + idx + ops.length ≤ U64 →
    OpLog.locklessReadMaxSeq txn + ops.length < U64 →
    ∃ e, appendLoop env s txn idx ops =
      .abort e ce (loopTrace env s idx (ops.take i) ++
        stepTrace env (s + idx + i) (ops.getD i default)) := by
  induction ops with
  | nil => intro txn idx i ce hi _ _ _ _; exact absurd hi (by simp)
  | cons o rest ih =>
    intro txn idx i ce hi hpre hbad hnw hms
    simp only [List.length_cons] at hnw hms hi
    have hseq : (s + idx) % U64 = s + idx := Nat.mod_eq_of_lt (by omega)
    cases i with
    | zero =>
      simp only [Nat.add_zero, List.getD_cons_zero] at hbad
      unfold stepCheck at hbad
      by_cases hc : o.hasContent = false
      · rw [if_pos hc] at hbad
        injection hbad with hce
        refine ⟨"operation content is empty", ?_⟩
        simp only [appendLoop, hseq, if_pos hc, ← hce, List.take_zero, loopTrace,
          List.nil_append, Nat.add_zero, List.getD_cons_zero, stepTrace, hc,
          if_pos]
      · rw [if_neg hc] at hbad
        cases hm : env.marshal o with
        | none =>
          rw [hm] at hbad
          injection hbad with hce
          refine ⟨"marshal operation failed", ?_⟩
          simp only [appendLoop, hseq, if_neg hc, hm, ← hce, List.take_zero,
            loopTrace, List.nil_append, Nat.add_zero, List.getD_cons_zero,
            stepTrace, if_neg hc]
        | some b =>
          rw [hm] at hbad
          cases hr : (runCallbacks env.callbacks (s + idx) o).1 with
          | none => rw [hr] at hbad; cases hbad
          | some ft =>
            rw [hr] at hbad
            injection hbad with hce
            refine ⟨"operation failed", ?_⟩
            simp only [appendLoop, hseq, if_neg hc, hm, hr, ← hce, List.take_zero,
              loopTrace, List.nil_append, Nat.add_zero, List.getD_cons_zero,
              stepTrace]
    | succ i' =>
      have hok := hpre 0 (by omega)
      simp only [Nat.add_zero, List.getD_cons_zero] at hok
      obtain ⟨hc, hmar, hr⟩ := stepCheck_eq_none hok
      obtain ⟨b, hm⟩ := Option.isSome_iff_exists.mp hmar
      have hcne : ¬ o.hasContent = false := by rw [hc]; simp
      set txn1 : Store := storeSet txn (printDec (s + idx)) b with htxn1
      set txn2 : Store := OpLog.locklessIncreaseMaxSeq txn1 with htxn2
      have hread1 : OpLog.locklessReadMaxSeq txn1 = OpLog.locklessReadMaxSeq txn := by
        rw [htxn1]
        exact locklessRead_set_ne txn (printDec_ne_maxSeqKey (s + idx))
      have hread2 : OpLog.locklessReadMaxSeq txn2 =
          OpLog.locklessReadMaxSeq txn + 1 := by
        rw [htxn2, locklessRead_increase txn1 (by rw [hread1]; omega), hread1]
      obtain ⟨e, heq⟩ := ih txn2 (idx + 1) i' ce (by omega)
        (fun j hj => by
          have hstep := hpre (j + 1) (by omega)
          simp only [List.getD_cons_succ] at hstep
          have harith : s + idx + (j + 1) = s + (idx + 1) + j := by omega
          rw [harith] at hstep
          exact hstep)
        (by
          have harith : s + (idx + 1) + i' = s + idx + (i' + 1) := by omega
          rw [harith]
          simpa using hbad)
        (by omega) (by rw [hread2]; omega)
      refine ⟨e, ?_⟩
      simp only [appendLoop, hseq, if_neg hcne, hm, hr, heq]
      rw [List.take_succ_cons, List.getD_cons_succ]
      simp only [loopTrace, hseq]
      rw [List.append_assoc]
      have harith : s + idx + (i' + 1) = s + (idx + 1) + i' := by omega
      rw [harith]

/-- A non-empty batch starting exactly at MaxSeq + 1 passes the sequence
validation: Append reduces to the loop followed by the commit. -/
theorem Append_validation_pass (env : OpLogEnv) (db : Store) (s : Nat)
    (ops : List Operation) (hne : ops ≠ []) (hs : s = OpLog.MaxSeq db + 1)
    (hms : OpLog.MaxSeq db + 1 < U64) :
    OpLog.Append env db s ops =
      match appendLoop env s db 0 ops with
      | .abort e c calls => ⟨db, some e, c, calls⟩
      | .ok txn calls =>
        if env.commitOk then ⟨txn, none, .NoneClusterError, calls⟩
        else ⟨db, some "commit transaction failed", .NoneClusterError, calls⟩ := by
  subst hs
  unfold OpLog.MaxSeq at hms ⊢
  simp only [OpLog.Append, if_neg hne, Nat.mod_eq_of_lt hms]
  rw [if_neg (by omega), if_neg (by omega), if_neg (by omega)]

/-- When the loop aborts after passed validation, Append discards the
transaction and returns the loop's error. -/
theorem Append_abort_result (env : OpLogEnv) (db : Store) (s : Nat)
    (ops : List Operation) (e : String) (c : ClusterErrorType)
    (calls : List (Nat × Operation)) (hne : ops ≠ [])
    (hs : s = OpLog.MaxSeq db + 1) (hms : OpLog.MaxSeq db + 1 < U64)
    (hloop : appendLoop env s db 0 ops = .abort e c calls) :
    OpLog.Append env db s ops = ⟨db, some e, c, calls⟩ := by
  rw [Append_validation_pass env db s ops hne hs hms]
  simp only [hloop]

/-- When the loop completes after passed validation, Append commits (or
reports the commit failure with a non-nil error and NoneClusterError). -/
theorem Append_ok_result (env : OpLogEnv) (db : Store) (s : Nat)
    (ops : List Operation) (txn : Store) (calls : List (Nat × Operation))
    (hne : ops ≠ []) (hs : s = OpLog.MaxSeq db + 1)
    (hms : OpLog.MaxSeq db + 1 < U64)
    (hloop : appendLoop env s db 0 ops = .ok txn calls) :
    OpLog.Append env db s ops =
      if env.commitOk then ⟨txn, none, .NoneClusterError, calls⟩
      else ⟨db, some "commit transaction failed", .NoneClusterError, calls⟩ := by
  rw [Append_validation_pass env db s ops hne hs hms]
  simp only [hloop]

/-- Inversion of a successful Append: the start sequence was MaxSeq + 1, the
new MaxSeq is the old one plus the batch length, every operation of the batch
is persisted serialized under the decimal key of its absolute sequence number,
and every other key is unchanged. -/
theorem Append_success_inv (env : OpLogEnv) (db : Store) (s : Nat)
    (ops : List Operation) (hne : ops ≠ [])
    (hnw : s + ops.length ≤ U64)
    (hms : OpLog.MaxSeq db + ops.length < U64)
    (hsucc : (OpLog.Append env db s ops).err = none) :
    s = OpLog.MaxSeq db + 1 ∧
    OpLog.MaxSeq (OpLog.Append env db s ops).store = OpLog.MaxSeq db + ops.length ∧
    (∀ j, j < ops.length →
      (OpLog.Append env db s ops).store (printDec (s + j)) =
        env.marshal (ops.getD j default) ∧
      (env.marshal (ops.getD j default)).isSome = true) ∧
    (∀ k, k ≠ maxSeqKey → (∀ j, j < ops.length → k ≠ printDec (s + j)) →
      (OpLog.Append env db s ops).store k = db k) := by
  have hlen : 0 < ops.length := List.length_pos.mpr hne
  unfold OpLog.MaxSeq at hms ⊢
  have hmod : (OpLog.locklessReadMaxSeq db + 1) % U64 =
      OpLog.locklessReadMaxSeq db + 1 := Nat.mod_eq_of_lt (by omega)
  have hs : s = OpLog.locklessReadMaxSeq db + 1 := by
    by_contra hneq
    simp only [OpLog.Append, if_neg hne, hmod] at hsucc
    by_cases h0 : s = 0
    · rw [if_pos h0] at hsucc
      simp at hsucc
    rw [if_neg h0] at hsucc
    by_cases hgt : OpLog.locklessReadMaxSeq db + 1 < s
    · rw [if_pos hgt] at hsucc
      simp at hsucc
    rw [if_neg hgt] at hsucc
    rw [if_pos (by omega)] at hsucc
    simp at hsucc
  refine ⟨hs, ?_⟩
  cases hloop : appendLoop env s db 0 ops with
  | abort e c calls =>
    rw [Append_abort_result env db s ops e c calls hne hs
      (by unfold OpLog.MaxSeq; omega) hloop] at hsucc
    simp at hsucc
  | ok txn calls =>
    rw [Append_ok_result env db s ops txn calls hne hs
      (by unfold OpLog.MaxSeq; omega) hloop] at hsucc ⊢
    by_cases hcommit : env.commitOk = true
    · simp only [if_pos hcommit] at hsucc ⊢
      obtain ⟨hread, hentries, hpres⟩ := appendLoop_ok_inv env s ops db 0 txn
        calls hloop (by omega) (by omega)
      simp only [Nat.add_zero] at hread hentries hpres
      exact ⟨hread, hentries, hpres⟩
    · simp only [if_neg hcommit] at hsucc
      simp at hsucc

/-- The Retrieve loop over a well-formed range: with every sequence from the
start up to the max sequence holding a non-empty entry that decodes to f of
that sequence, the loop returns exactly the first min(count, remaining)
operations in ascending sequence order. -/
theorem retrieveLoop_ok (env : OpLogEnv) (st : Store) (ms s : Nat)
    (f : Nat → Operation)
    (hinv : ∀ q, s ≤ q → q ≤ ms →
      ∃ b, st (printDec q) = some b ∧ b ≠ "" ∧ env.unmarshal b = some (f q))
    (hms : ms + 1 < U64) :
    ∀ (cnt idx : Nat), s + idx ≤ ms + 1 →
    retrieveLoop env st ms s idx cnt =
      .ok ((List.range (min cnt (ms + 1 - (s + idx)))).map
        (fun j => f (s + idx + j))) := by
  intro cnt
  induction cnt with
  | zero => intro idx _; simp [retrieveLoop]
  | succ c ihc =>
    intro idx hidx
    have hlt : s + idx < U64 := by omega
    have hseq : (s + idx) % U64 = s + idx := Nat.mod_eq_of_lt hlt
    by_cases hle : s + idx ≤ ms
    · obtain ⟨b, hb, hbne, hun⟩ := hinv (s + idx) (by omega) hle
      simp only [retrieveLoop, hseq, if_pos hle, hb, if_neg hbne, hun]
      rw [ihc (idx + 1) (by omega)]
      have h1 : ms + 1 - (s + idx) = (ms + 1 - (s + idx + 1)) + 1 := by omega
      rw [h1, Nat.succ_min_succ, List.range_succ_eq_map, List.map_cons,
        List.map_map]
      have hnorm : s + (idx + 1) = s + idx + 1 := by omega
      simp only [Nat.add_zero, hnorm]
      congr 1
      congr 1
      apply List.map_congr_left
      intro j _
      simp only [Function.comp_apply]
      congr 1
      omega
    · have hz : ms + 1 - (s + idx) = 0 := by omega
      simp only [retrieveLoop, hseq, if_neg hle, hz, Nat.min_zero,
        List.range_zero, List.map_nil]

/-- C9: Append with an empty batch returns success (nil error, NoneClusterError)
and leaves the database — hence MaxSeq and every persisted entry — unchanged,
for every startSeq including 0 and values beyond MaxSeq + 1: the emptiness
check precedes all sequence-number validation, so an empty batch never reaches
the Internal, InvalidSeq or SeqConflict errors. -/
theorem append_empty_batch_noop (env : OpLogEnv) (db : Store) (startSeq : Nat) :
    OpLog.Append env db startSeq [] = ⟨db, none, .NoneClusterError, []⟩ := rfl

/-- C3: a non-empty batch with startSeq different from MaxSeq + 1 always
fails — Internal if startSeq is 0, InvalidSeq if startSeq exceeds MaxSeq + 1,
SeqConflict if 0 < startSeq < MaxSeq + 1 — and leaves the database (hence
MaxSeq and all persisted entries) unchanged. -/
theorem append_seq_validation (env : OpLogEnv) (db : Store) (startSeq : Nat)
    (ops : List Operation) (hne : ops ≠ [])
    (hbound : OpLog.MaxSeq db + 1 < U64)
    (hneq : startSeq ≠ OpLog.MaxSeq db + 1) :
    (OpLog.Append env db startSeq ops).store = db ∧
    (OpLog.Append env db startSeq ops).err.isSome = true ∧
    (OpLog.Append env db startSeq ops).cerr =
      (if startSeq = 0 then .InternalServerError
       else if OpLog.MaxSeq db + 1 < startSeq then .OperationInvalidSeqError
       else .OperationSeqConflictError) := by
  unfold OpLog.MaxSeq at hbound hneq ⊢
  simp only [OpLog.Append, if_neg hne, Nat.mod_eq_of_lt hbound]
  by_cases h0 : startSeq = 0
  · simp [h0]
  by_cases hgt : OpLog.locklessReadMaxSeq db + 1 < startSeq
  · rw [if_neg h0, if_pos hgt]
    simp [h0, hgt]
  · rw [if_neg h0, if_neg hgt, if_pos (by omega)]
    simp [h0, hgt]

/-- C3 witness: on the freshly initialized empty log, appending one operation
at sequence 5 fails with InvalidSeq and changes nothing. -/
theorem append_seq_validation_witness :
    (OpLog.Append envPlain db0 5 [opA]).store = db0 ∧
    (OpLog.Append envPlain db0 5 [opA]).err.isSome = true ∧
    (OpLog.Append envPlain db0 5 [opA]).cerr = .OperationInvalidSeqError := by
  have h := append_seq_validation envPlain db0 5 [opA] (by decide) (by decide)
    (by decide)
  refine ⟨h.1, h.2.1, ?_⟩
  rw [h.2.2]
  decide

/-- C7: Retrieve with startSeq 0 fails with an internal error, and Retrieve
with any startSeq beyond MaxSeq succeeds with an empty result and
NoneClusterError. -/
theorem retrieve_zero_and_beyond_max (env : OpLogEnv) (db : Store) (n s : Nat)
    (hgt : OpLog.MaxSeq db < s) :
    OpLog.Retrieve env db 0 n =
      ([], some "invalid begin sequential operation", .InternalServerError) ∧
    OpLog.Retrieve env db s n = ([], none, .NoneClusterError) := by
  constructor
  · simp [OpLog.Retrieve]
  · unfold OpLog.MaxSeq at hgt
    simp only [OpLog.Retrieve]
    rw [if_neg (by omega), if_pos hgt]

/-- C7 witness: both branches on the freshly initialized empty log. -/
theorem retrieve_zero_and_beyond_max_witness :
    OpLog.Retrieve envPlain db0 0 7 =
      ([], some "invalid begin sequential operation", .InternalServerError) ∧
    OpLog.Retrieve envPlain db0 3 7 = ([], none, .NoneClusterError) :=
  retrieve_zero_and_beyond_max envPlain db0 7 3 (by decide)

/-- C1 counterexample: on a batch that passes validation, staging and (the
empty set of) callbacks, a failing commit makes Append return the
NoneClusterError kind with a non-nil error — not InternalServerError as the
claim states. -/
theorem append_commit_fail_cex :
    (OpLog.Append envNoCommit db0 1 [opA]).err.isSome = true ∧
    (OpLog.Append envNoCommit db0 1 [opA]).cerr = .NoneClusterError ∧
    (OpLog.Append envNoCommit db0 1 [opA]).cerr ≠ .InternalServerError := by
  decide

/-- C1 (amended): for every non-empty batch that passes validation, staging
and all callbacks, a failing final commit leaves the database unchanged and
makes Append return a non-nil error whose ClusterErrorType is NoneClusterError
(the success kind), not InternalServerError. -/
theorem append_commit_fail_none_cluster_error (env : OpLogEnv) (db : Store)
    (startSeq : Nat) (ops : List Operation) (txn : Store)
    (calls : List (Nat × Operation)) (hne : ops ≠ [])
    (hs : startSeq = OpLog.MaxSeq db + 1) (hbound : OpLog.MaxSeq db + 1 < U64)
    (hloop : appendLoop env startSeq db 0 ops = .ok txn calls)
    (hcommit : env.commitOk = false) :
    OpLog.Append env db startSeq ops =
      ⟨db, some "commit transaction failed", .NoneClusterError, calls⟩ := by
  rw [Append_ok_result env db startSeq ops txn calls hne hs hbound hloop]
  simp [hcommit]

/-- C1 witness: the amended statement at the concrete failing-commit input. -/
theorem append_commit_fail_none_cluster_error_witness :
    OpLog.Append envNoCommit db0 1 [opA] =
      ⟨db0, some "commit transaction failed", .NoneClusterError, []⟩ :=
  append_commit_fail_none_cluster_error envNoCommit db0 1 [opA]
    (OpLog.locklessIncreaseMaxSeq (storeSet db0 (printDec 1) "a")) []
    (by decide) (by decide) (by decide) rfl rfl

/-- C2: evaluation at the failing input: a registered callback that fails
reporting kind NoneOperationFailure makes Append return a non-nil error whose
ClusterErrorType is NoneClusterError (the success value the source assigns in
that switch case), not the InternalServerError the spec requires. -/
theorem append_callback_none_failure_eval :
    (OpLog.Append envNoneFailureCb db0 1 [opA]).err.isSome = true ∧
    (OpLog.Append envNoneFailureCb db0 1 [opA]).cerr = .NoneClusterError ∧
    (OpLog.Append envNoneFailureCb db0 1 [opA]).cerr ≠ .InternalServerError := by
  decide

/-- C8 counterexample: with a serializer that fails, Append on a valid batch
returns OperationInvalidContentError, not the InternalServerError the claim
states. -/
theorem append_marshal_fail_cex :
    (OpLog.Append envNoMarshal db0 1 [opA]).err.isSome = true ∧
    (OpLog.Append envNoMarshal db0 1 [opA]).cerr = .OperationInvalidContentError ∧
    (OpLog.Append envNoMarshal db0 1 [opA]).cerr ≠ .InternalServerError := by
  decide

/-- C8 (amended): when serialization fails on the i-th operation of a batch
whose earlier iterations all complete, Append fails with a non-nil error and
ClusterErrorType OperationInvalidContentError (not InternalServerError),
leaving the database unchanged. -/
theorem append_marshal_fail_invalid_content (env : OpLogEnv) (db : Store)
    (startSeq : Nat) (ops : List Operation) (i : Nat)
    (hi : i < ops.length)
    (hs : startSeq = OpLog.MaxSeq db + 1)
    (hnw : startSeq + ops.length ≤ U64)
    (hms : OpLog.MaxSeq db + ops.length < U64)
    (hpre : ∀ j, j < i → stepCheck env (startSeq + j) (ops.getD j default) = none)
    (hcont : (ops.getD i default).hasContent = true)
    (hmar : env.marshal (ops.getD i default) = none) :
    (OpLog.Append env db startSeq ops).store = db ∧
    (OpLog.Append env db startSeq ops).err.isSome = true ∧
    (OpLog.Append env db startSeq ops).cerr = .OperationInvalidContentError := by
  have hne : ops ≠ [] := by
    intro h
    rw [h] at hi
    simp at hi
  have hbad : stepCheck env (startSeq + i) (ops.getD i default) =
      some .OperationInvalidContentError := by
    unfold stepCheck
    rw [if_neg (by rw [hcont]; simp), hmar]
  obtain ⟨e, heq⟩ := appendLoop_abort_at env startSeq ops db 0 i
    .OperationInvalidContentError hi
    (fun j hj => by simpa using hpre j hj)
    (by simpa using hbad)
    (by simpa using hnw)
    (by unfold OpLog.MaxSeq at hms; simpa using hms)
  rw [Append_abort_result env db startSeq ops e _ _ hne hs
    (by unfold OpLog.MaxSeq at hms ⊢; omega) heq]
  simp

/-- C8 witness: the amended statement at the concrete failing-marshal input. -/
theorem append_marshal_fail_invalid_content_witness :
    (OpLog.Append envNoMarshal db0 1 [opA]).store = db0 ∧
    (OpLog.Append envNoMarshal db0 1 [opA]).err.isSome = true ∧
    (OpLog.Append envNoMarshal db0 1 [opA]).cerr = .OperationInvalidContentError :=
  append_marshal_fail_invalid_content envNoMarshal db0 1 [opA] 0 (by decide)
    (by decide) (by decide) (by decide)
    (fun j hj => absurd hj (by omega)) (by decide) rfl

/-- C10: Validate returns no error whenever HTTPS is disabled, regardless of
the certificate and key fields; with HTTPS enabled it returns an error
whenever the certificate or the key is empty, and it checks the certificate
first (an empty certificate yields the certificate error even when the key is
also empty). -/
theorem validate_https_checks (x509 : String → String → Option String)
    (spec : HTTPServer.Spec) :
    (spec.https = false → HTTPServer.Spec.Validate x509 spec = none) ∧
    (spec.https = true → (spec.certBase64 = "" ∨ spec.keyBase64 = "") →
      (HTTPServer.Spec.Validate x509 spec).isSome = true) ∧
    (spec.https = true → spec.certBase64 = "" →
      HTTPServer.Spec.Validate x509 spec =
        some "cert is empty when https enabled") := by
  refine ⟨?_, ?_, ?_⟩
  · intro h
    simp [HTTPServer.Spec.Validate, h]
  · intro h hck
    simp only [HTTPServer.Spec.Validate, h, if_true]
    by_cases hc : spec.certBase64 = ""
    · simp [hc]
    · rw [if_neg hc]
      have hk : spec.keyBase64 = "" := hck.resolve_left hc
      simp [hk]
  · intro h hc
    simp [HTTPServer.Spec.Validate, h, hc]

/-- C10 witness: the three branches at concrete specs. -/
theorem validate_https_checks_witness :
    HTTPServer.Spec.Validate x509ok hspec1 = none ∧
    (HTTPServer.Spec.Validate x509ok hspec2).isSome = true ∧
    HTTPServer.Spec.Validate x509ok hspec2 =
      some "cert is empty when https enabled" :=
  ⟨(validate_https_checks x509ok hspec1).1 rfl,
    (validate_https_checks x509ok hspec2).2.1 rfl (Or.inl rfl),
    (validate_https_checks x509ok hspec2).2.2 rfl rfl⟩

/-- Retrieve over an in-range window of a well-formed log: every sequence of
the window holds a non-empty entry decoding to f of that sequence, and the
call returns exactly min(countLimit, MaxSeq - startSeq + 1) operations in
ascending sequence order. -/
theorem Retrieve_range (env : OpLogEnv) (db : Store) (s n : Nat)
    (f : Nat → Operation)
    (hinv : ∀ q, s ≤ q → q ≤ OpLog.MaxSeq db →
      ∃ b, db (printDec q) = some b ∧ b ≠ "" ∧ env.unmarshal b = some (f q))
    (hs1 : 1 ≤ s) (hs2 : s ≤ OpLog.MaxSeq db)
    (hbound : OpLog.MaxSeq db + 1 < U64) :
    OpLog.Retrieve env db s n =
      ((List.range (min n (OpLog.MaxSeq db + 1 - s))).map (fun j => f (s + j)),
        none, .NoneClusterError) := by
  unfold OpLog.MaxSeq at hinv hs2 hbound ⊢
  simp only [OpLog.Retrieve, if_neg (show ¬ s = 0 by omega),
    if_neg (show ¬ OpLog.locklessReadMaxSeq db < s by omega),
    retrieveLoop_ok env db (OpLog.locklessReadMaxSeq db) s f hinv hbound n 0
      (by omega),
    Nat.add_zero]

/-- Mapping getD over the index range of a list reproduces the list. -/
theorem range_map_getD (l : List Operation) (d : Operation) :
    (List.range l.length).map (fun j => l.getD j d) = l := by
  apply List.ext_getElem
  · simp
  · intro i h1 h2
    simp [List.getD_eq_getElem?_getD, List.getElem?_eq_getElem, h2]

/-- C4: a successful Append of a non-empty batch at startSeq = MaxSeq + 1
advances MaxSeq by exactly the number of operations in the batch, and each
operation of the batch is persisted, serialized, under the decimal-string key
of its absolute sequence number startSeq + i. -/
theorem append_success_effects (env : OpLogEnv) (db : Store) (startSeq : Nat)
    (ops : List Operation) (hne : ops ≠ [])
    (_hs : startSeq = OpLog.MaxSeq db + 1)
    (hnw : startSeq + ops.length ≤ U64)
    (hms : OpLog.MaxSeq db + ops.length < U64)
    (hsucc : (OpLog.Append env db startSeq ops).err = none) :
    OpLog.MaxSeq (OpLog.Append env db startSeq ops).store =
      OpLog.MaxSeq db + ops.length ∧
    (∀ i, i < ops.length →
      (OpLog.Append env db startSeq ops).store (printDec (startSeq + i)) =
        env.marshal (ops.getD i default) ∧
      (env.marshal (ops.getD i default)).isSome = true) := by
  obtain ⟨_, h2, h3, _⟩ := Append_success_inv env db startSeq ops hne hnw hms
    hsucc
  exact ⟨h2, h3⟩

/-- C4 witness: appending two operations to the empty log persists them under
keys "1" and "2" and sets MaxSeq to 2. -/
theorem append_success_effects_witness :
    OpLog.MaxSeq (OpLog.Append envPlain db0 1 [opA, opB]).store = 2 ∧
    (OpLog.Append envPlain db0 1 [opA, opB]).store (printDec 1) = some "a" ∧
    (OpLog.Append envPlain db0 1 [opA, opB]).store (printDec 2) = some "b" := by
  have h := append_success_effects envPlain db0 1 [opA, opB] (by decide)
    (by decide) (by decide) (by decide) (by decide)
  refine ⟨by rw [h.1]; decide, ?_, ?_⟩
  · exact ((h.2 0 (by decide)).1).trans (by decide)
  · exact ((h.2 1 (by decide)).1).trans (by decide)

/-- C5: for every startSeq with 1 ≤ startSeq ≤ MaxSeq and every countLimit,
Retrieve succeeds and returns exactly min(countLimit, MaxSeq - startSeq + 1)
operations in ascending sequence order (the j-th returned operation is the one
persisted at sequence startSeq + j), and Retrieve composed after a successful
Append returns operations equal to the appended batch (the
serialize/deserialize round trip). -/
theorem retrieve_spec_and_roundtrip :
    (∀ (env : OpLogEnv) (db : Store) (s n : Nat) (f : Nat → Operation),
      (∀ q, s ≤ q → q ≤ OpLog.MaxSeq db →
        ∃ b, db (printDec q) = some b ∧ b ≠ "" ∧ env.unmarshal b = some (f q)) →
      1 ≤ s → s ≤ OpLog.MaxSeq db → OpLog.MaxSeq db + 1 < U64 →
      OpLog.Retrieve env db s n =
        ((List.range (min n (OpLog.MaxSeq db + 1 - s))).map (fun j => f (s + j)),
          none, .NoneClusterError)) ∧
    (∀ (env : OpLogEnv) (db : Store) (startSeq : Nat) (ops : List Operation),
      ops ≠ [] →
      startSeq = OpLog.MaxSeq db + 1 →
      startSeq + ops.length < U64 →
      OpLog.MaxSeq db + ops.length < U64 →
      (∀ j, j < ops.length → ∃ b,
        env.marshal (ops.getD j default) = some b ∧ b ≠ "" ∧
        env.unmarshal b = some (ops.getD j default)) →
      (OpLog.Append env db startSeq ops).err = none →
      OpLog.Retrieve env (OpLog.Append env db startSeq ops).store startSeq
        ops.length = (ops, none, .NoneClusterError)) := by
  constructor
  · intro env db s n f hinv hs1 hs2 hbound
    exact Retrieve_range env db s n f hinv hs1 hs2 hbound
  · intro env db startSeq ops hne hs hnw hms hrt hsucc
    have hlen : 0 < ops.length := List.length_pos.mpr hne
    obtain ⟨_, hmax, hentries, _⟩ := Append_success_inv env db startSeq ops hne
      (by omega) hms hsucc
    have hinv : ∀ q, startSeq ≤ q →
        q ≤ OpLog.MaxSeq (OpLog.Append env db startSeq ops).store →
        ∃ b, (OpLog.Append env db startSeq ops).store (printDec q) = some b ∧
          b ≠ "" ∧
          env.unmarshal b = some (ops.getD (q - startSeq) default) := by
      intro q hq1 hq2
      rw [hmax] at hq2
      have hj : q - startSeq < ops.length := by omega
      obtain ⟨hentry, _⟩ := hentries (q - startSeq) hj
      obtain ⟨b, hb, hbne, hub⟩ := hrt (q - startSeq) hj
      refine ⟨b, ?_, hbne, hub⟩
      have hq : startSeq + (q - startSeq) = q := by omega
      rw [hq] at hentry
      rw [hentry, hb]
    have hr := Retrieve_range env (OpLog.Append env db startSeq ops).store
      startSeq ops.length (fun q => ops.getD (q - startSeq) default) hinv
      (by omega) (by rw [hmax]; omega) (by rw [hmax]; omega)
    rw [hr]
    have hlen' : OpLog.MaxSeq (OpLog.Append env db startSeq ops).store + 1 -
        startSeq = ops.length := by
      rw [hmax]; omega
    rw [hlen', Nat.min_self]
    simp only [Nat.add_sub_cancel_left]
    rw [range_map_getD]

/-- C5 witness: both parts at concrete inputs — retrieving the two-entry log
and retrieving right after a successful two-operation Append. -/
theorem retrieve_spec_and_roundtrip_witness :
    OpLog.Retrieve envPlain db2 1 10 = ([opA, opB], none, .NoneClusterError) ∧
    OpLog.Retrieve envPlain (OpLog.Append envPlain db0 1 [opA, opB]).store 1 2 =
      ([opA, opB], none, .NoneClusterError) := by
  constructor
  · have h := retrieve_spec_and_roundtrip.1 envPlain db2 1 10
      (fun q => if q = 1 then opA else opB)
      (by
        intro q h1 h2
        have hm2 : OpLog.MaxSeq db2 = 2 := by decide
        rw [hm2] at h2
        interval_cases q
        · exact ⟨"a", by decide, by decide, by decide⟩
        · exact ⟨"b", by decide, by decide, by decide⟩)
      (by decide) (by decide) (by decide)
    exact h.trans (by decide)
  · exact retrieve_spec_and_roundtrip.2 envPlain db0 1 [opA, opB] (by decide)
      (by decide) (by decide) (by decide)
      (by
        intro j hj
        have hj2 : j < 2 := by simpa using hj
        interval_cases j
        · exact ⟨"a", by decide, by decide, by decide⟩
        · exact ⟨"b", by decide, by decide, by decide⟩)
      (by decide)

/-- C6: if a registered callback fails (reporting kind ft) on the i-th
operation of a batch whose earlier iterations all completed, the entire Append
aborts: the open transaction is discarded so the database — hence MaxSeq and
every persisted entry — is unchanged, the call returns a non-nil error with
the cluster error mapped from ft, no operation of the batch is retrievable
(Retrieve at the batch's start sequence is an empty success), and yet the
returned invocation trace records that the callbacks for the earlier
operations of the batch (and those before the failing callback on operation i)
already ran. -/
theorem append_callback_abort_all (env : OpLogEnv) (db : Store)
    (startSeq : Nat) (ops : List Operation) (i : Nat)
    (ft : OperationFailureType)
    (hi : i < ops.length)
    (hs : startSeq = OpLog.MaxSeq db + 1)
    (hnw : startSeq + ops.length ≤ U64)
    (hms : OpLog.MaxSeq db + ops.length < U64)
    (hpre : ∀ j, j < i → stepCheck env (startSeq + j) (ops.getD j default) = none)
    (hcont : (ops.getD i default).hasContent = true)
    (hmar : (env.marshal (ops.getD i default)).isSome = true)
    (hcb : (runCallbacks env.callbacks (startSeq + i) (ops.getD i default)).1 =
      some ft) :
    (OpLog.Append env db startSeq ops).store = db ∧
    (OpLog.Append env db startSeq ops).err.isSome = true ∧
    (OpLog.Append env db startSeq ops).cerr = clusterErrTypeOfFailure ft ∧
    (OpLog.Append env db startSeq ops).calls =
      loopTrace env startSeq 0 (ops.take i) ++
        (runCallbacks env.callbacks (startSeq + i) (ops.getD i default)).2 ∧
    (∀ n, OpLog.Retrieve env db startSeq n = ([], none, .NoneClusterError)) := by
  have hne : ops ≠ [] := by
    intro h
    rw [h] at hi
    simp at hi
  obtain ⟨b, hm⟩ := Option.isSome_iff_exists.mp hmar
  have hbad : stepCheck env (startSeq + i) (ops.getD i default) =
      some (clusterErrTypeOfFailure ft) := by
    unfold stepCheck
    rw [if_neg (by rw [hcont]; simp)]
    simp only [hm, hcb]
  obtain ⟨e, heq⟩ := appendLoop_abort_at env startSeq ops db 0 i
    (clusterErrTypeOfFailure ft) hi
    (fun j hj => by simpa using hpre j hj)
    (by simpa using hbad)
    (by simpa using hnw)
    (by unfold OpLog.MaxSeq at hms; simpa using hms)
  rw [Append_abort_result env db startSeq ops e _ _ hne hs
    (by unfold OpLog.MaxSeq at hms ⊢; omega) heq]
  refine ⟨rfl, rfl, rfl, ?_, ?_⟩
  · show loopTrace env startSeq 0 (ops.take i) ++
        stepTrace env (startSeq + 0 + i) (ops.getD i default) = _
    simp only [Nat.add_zero]
    congr 1
    unfold stepTrace
    rw [if_neg (by rw [hcont]; simp)]
    simp only [hm]
  · intro n
    unfold OpLog.MaxSeq at hs
    simp only [OpLog.Retrieve]
    rw [if_neg (by omega), if_pos (by omega)]

/-- C6 witness: a three-operation batch whose callback fails on the second
operation leaves the empty log untouched, returns GeneralFailureError with a
non-nil error, records the invocations for operations 1 and 2, and nothing of
the batch is retrievable. -/
theorem append_callback_abort_all_witness :
    (OpLog.Append envFailAt2 db0 1 [opA, opB, opC]).store = db0 ∧
    (OpLog.Append envFailAt2 db0 1 [opA, opB, opC]).err.isSome = true ∧
    (OpLog.Append envFailAt2 db0 1 [opA, opB, opC]).cerr =
      .OperationGeneralFailureError ∧
    (OpLog.Append envFailAt2 db0 1 [opA, opB, opC]).calls =
      [(1, opA), (2, opB)] ∧
    OpLog.Retrieve envFailAt2 db0 1 5 = ([], none, .NoneClusterError) := by
  have h := append_callback_abort_all envFailAt2 db0 1 [opA, opB, opC] 1
    .OperationGeneralFailure (by decide) (by decide) (by decide) (by decide)
    (by intro j hj; interval_cases j; decide) (by decide) (by decide) (by decide)
  refine ⟨h.1, h.2.1, ?_, ?_, h.2.2.2.2 5⟩
  · rw [h.2.2.1]
    decide
  · rw [h.2.2.2.1]
    decide
